import Mathlib

/-!
Shallow embedding of `src/thai_language/note.py` (note composition engine of
`anki_thai_language`): data model, media registry, component-graph traversal,
field composition and the inline-reference codec, together with theorems
settling the specification claims.

Python mutable state (the formatter's `_media` map, the traversal's `visited`
set) is made explicit by state passing; Python exceptions are modelled by
`Except Err`; Python generators are materialised into lists (callers consume
them fully); Python's recursive generator traversal is given an explicit fuel
parameter, with a theorem showing a sufficient fuel bound.
-/

namespace ThaiLanguage

/-- Modelled from the spec: entry ids (from the missing `types` module). -/
abbrev EntryId := Nat

/-- Modelled from the spec: definition ids (from the missing `types` module). -/
abbrev DefinitionId := Nat

/-- Modelled from the spec: `EntryRef` is `(entry_id, definition_id?)`;
an absent definition id means "use the entry's default/first definition"
(from the missing `types` module). -/
structure EntryRef where
  id : EntryId
  definition : Option DefinitionId := none
deriving DecidableEq, Repr

/-- Modelled from the spec: a component reference is either an `EntryRef` or
the `SELF_REFERENCE` sentinel denoting the enclosing entry
(from the missing `types` module). -/
inductive ComponentRef where
  | selfRef
  | ref (r : EntryRef)
deriving DecidableEq, Repr

/-- Modelled from the spec: a definition carries text, category tags (stored
as groups of tag strings — the code's membership test
`"..." in (c for cat in defn.categories for c in cat)` ranges over all tags of
all groups), an optional `super_entry` marker (only its presence is inspected
by this module), an optional ordered component list and an optional ordered
classifier list (from the missing `types` module). -/
structure EntryDefinition where
  definition : String
  categories : List (List String)
  super_entry : Option Unit := none
  components : Option (List ComponentRef) := none
  classifiers : Option (List EntryRef) := none
deriving DecidableEq, Repr

/-- Modelled from the spec: a dictionary entry with id, display text,
pronunciation map (scheme name to text), optional audio locator, ordered
definition map and a designated first-definition id
(from the missing `types` module).  Python `dict`s preserve insertion order,
so the mappings are association lists. -/
structure DictionaryEntry where
  id : EntryId
  entry : String
  pronounciations : List (String × String)
  sound_url : Option String := none
  definitions : List (DefinitionId × EntryDefinition)
  first_definition : DefinitionId
deriving DecidableEq, Repr

/-- Structure `WordComponent` from `note.py`: one emitted node of the flattened
component tree. -/
structure WordComponent where
  id : EntryId
  definition : DefinitionId
  entry : DictionaryEntry
  level : Nat
deriving DecidableEq, Repr

/-- Structure `InlineRef` from `note.py`: a parsed `[[...]]` occurrence. -/
structure InlineRef where
  ref : EntryRef
  capitalized : Bool := false
deriving DecidableEq, Repr

/-- Media map: sanitized name to source locator path, as an ordered
association list (Python `dict`). -/
abbrev Media := List (String × String)

/-- Structure `WordNote` from `note.py`. -/
structure WordNote where
  ref : EntryRef
  word : String
  definition : String
  extra : String
  media : Media
deriving DecidableEq, Repr

/-- Structure `ClozeNote` from `note.py`.  Its `media` field is never set by
`cloze_to_note` and keeps its empty default. -/
structure ClozeNote where
  inline_ids : String
  cloze : String
  extra : String
  media : Media
deriving DecidableEq, Repr

/-- Python exceptions raised by the embedded code. -/
inductive Err where
  /-- Exception `EntryNotFound` from the `fetch` module. -/
  | entryNotFound
  /-- A Python `KeyError` (missing dictionary key). -/
  | keyError
  /-- Exception `RuntimeError("No suitable definitions found")`. -/
  | noSuitableDefinitions
  /-- The `assert` in `use_media`; the spec calls this `MediaNameCollision`. -/
  | mediaNameCollision
  /-- A Python `IndexError` (sequence index out of range). -/
  | indexError
  /-- Artefact of the embedding: recursion fuel exhausted.  The sufficiency
  theorems show this never occurs at the stated fuel bound. -/
  | outOfFuel
deriving DecidableEq, Repr

/-- Modelled from the spec: the external `DictionaryFetcher` (missing `fetch`
module) is a finite table of entries plus an abstract super-entry synthesiser
`get_super_entry`. -/
structure DictionaryFetcher where
  entries : List (EntryId × DictionaryEntry)
  get_super_entry : DictionaryEntry → DefinitionId → DictionaryEntry

/-- Modelled from the spec: `get_entry(id)` returns the entry or fails with
`EntryNotFound` (here: `none`). -/
def DictionaryFetcher.get_entry (F : DictionaryFetcher) (id : EntryId) :
    Option DictionaryEntry :=
  (F.entries.find? (fun p => p.1 == id)).map (·.2)

/-- Python `entry.definitions[d]` as an `Option` (keys of a Python `dict` are
unique, so first-match lookup agrees with the dict). -/
def lookupDefn (e : DictionaryEntry) (d : DefinitionId) : Option EntryDefinition :=
  (e.definitions.find? (fun p => p.1 == d)).map (·.2)

/-- Python `entry.pronounciations[name]` as an `Option`. -/
def lookupPronounciation (e : DictionaryEntry) (name : String) : Option String :=
  (e.pronounciations.find? (fun p => p.1 == name)).map (·.2)

/-- Python `s.replace(a, b)` for single-character `a`, `b` (a per-character
map, since the pattern is one character). -/
def replaceChar (a b : Char) (s : String) : String :=
  String.mk (s.toList.map (fun c => if c = a then b else c))

/-- One character of Python `html.escape` (with its default `quote=True`). -/
def escapeHtmlChar (c : Char) : List Char :=
  if c = '&' then "&amp;".toList
  else if c = '<' then "&lt;".toList
  else if c = '>' then "&gt;".toList
  else if c = '"' then "&quot;".toList
  else if c = '\'' then "&#x27;".toList
  else [c]

/-- Python `html.escape(s)`: the five sequential replacements never re-match
each other's output, so they amount to a per-character map. -/
def html_escape (s : String) : String :=
  String.mk ((s.toList.map escapeHtmlChar).flatten)

/-- Function `join_nonempty_strings` from `note.py`, at its default separator
`"<br><br>"` (the only separator used by the embedded call sites). -/
def join_nonempty_strings (strs : List String) : String :=
  String.intercalate "<br><br>" (strs.filter (fun s => !(s == "")))

/-- The formatter's configuration: the fetcher and the pronunciation scheme
name (`"Paiboon"` when the constructor argument is `None`). -/
structure NoteFormatter where
  fetcher : DictionaryFetcher
  pronounciation_type : String := "Paiboon"

/-- Method `NoteFormatter.use_media`: sanitize the path, record it, and check the
internal-consistency assertion.  The formatter's mutable `_media` map is the
explicit `media` argument and result. -/
def use_media (media : Media) (path : String) : Except Err (String × Media) :=
  match media.find? (fun p => p.1 == replaceChar '/' '_' path) with
  | some p =>
    if p.2 = path then .ok (replaceChar '/' '_' path, media)
    else .error .mediaNameCollision
  | none =>
    .ok (replaceChar '/' '_' path, media ++ [(replaceChar '/' '_' path, path)])

/-- Method `NoteFormatter.is_suitable_definition` (the `_entry` parameter is unused
in the source and omitted). -/
def is_suitable_definition (defn : EntryDefinition) : Bool :=
  if defn.super_entry.isSome then false
  else if defn.categories.flatten.contains "The English Alphabet" then false
  else true

/-- Method `NoteFormatter.suitable_definitions`: ids of suitable definitions, or
`RuntimeError` when none. -/
def suitable_definitions (entry : DictionaryEntry) : Except Err (List DefinitionId) :=
  let defns := (entry.definitions.filter (fun p => is_suitable_definition p.2)).map (·.1)
  if defns.length = 0 then .error .noSuitableDefinitions else .ok defns

/-- Method `NoteFormatter.format_pronounciation`: scheme lookup (KeyError when the
scheme is absent), spaces to hyphens, HTML-escape. -/
def format_pronounciation (P : NoteFormatter) (entry : DictionaryEntry) :
    Except Err String :=
  match lookupPronounciation entry P.pronounciation_type with
  | none => .error .keyError
  | some s => .ok (html_escape (replaceChar ' ' '-' s))

/-- Method `NoteFormatter.format_inline_word`. -/
def format_inline_word (P : NoteFormatter) (entry : DictionaryEntry) :
    Except Err String := do
  let pron ← format_pronounciation P entry
  let entry_str := html_escape entry.entry
  .ok ("<ruby>" ++ entry_str ++ "<rt>" ++ pron ++ "</rt></ruby>")

/-- Method `NoteFormatter.format_word_field`: `entry[pron]`, plus a `[sound:...]`
suffix through the media registry when the entry has an audio locator. -/
def format_word_field (P : NoteFormatter) (entry : DictionaryEntry)
    (media : Media) : Except Err (String × Media) := do
  let pron ← format_pronounciation P entry
  let entry_str := html_escape entry.entry
  let word_str := entry_str ++ "[" ++ pron ++ "]"
  match entry.sound_url with
  | none => .ok (word_str, media)
  | some url => do
    let (sound_file, media) ← use_media media url
    .ok (word_str ++ " [sound:" ++ sound_file ++ "]", media)

/-- Method `NoteFormatter.format_definition`: HTML-escaped text of the requested
definition (the entry's `first_definition` when unspecified); KeyError when
the id is absent. -/
def format_definition (entry : DictionaryEntry) (defn : Option DefinitionId) :
    Except Err String :=
  let d := defn.getD entry.first_definition
  match lookupDefn entry d with
  | none => .error .keyError
  | some x => .ok (html_escape x.definition)

/-- Method `NoteFormatter.format_definition_field`: suitable definitions joined with
`"<br>"`. -/
def format_definition_field (entry : DictionaryEntry) : Except Err String := do
  let ids ← suitable_definitions entry
  let strs ← ids.mapM (fun id => format_definition entry (some id))
  .ok (String.intercalate "<br>" strs)

/-- Method `NoteFormatter.format_component`: indentation, inline word, `": "`,
definition text. -/
def format_component (P : NoteFormatter) (c : WordComponent) :
    Except Err String := do
  let component_word ← format_inline_word P c.entry
  let component_defn ← format_definition c.entry (some c.definition)
  let nbsps := String.join (List.replicate (2 * c.level) "&nbsp;")
  .ok (nbsps ++ component_word ++ ": " ++ component_defn)

/-! ### Component Graph Builder (`_build_component` / `_build_components`)

The Python code is a pair of mutually recursive generators sharing a mutable
`visited` set.  Here the `visited` set is threaded explicitly and the mutual
recursion is tied by a fuel parameter: `buildComponentF` at fuel `n + 1`
expands sub-components with `buildComponentF` at fuel `n`.  The sufficiency
theorem below shows a fuel of (number of `(entry, definition)` pairs of the
fetcher) + 2 never exhausts. -/

/-- The shared `visited` set of `(entry_id, definition_id)` pairs
(an `EntryRef` with a present definition id). -/
abbrev Visited := List EntryRef

abbrev BuildRes := Except Err (List WordComponent × Visited)

abbrev BuildFn := EntryRef → DictionaryEntry → Visited → Nat → Bool → BuildRes

/-- The `(entry_id, definition_id)` dedup key of an emitted component:
exactly the `comp_ref` the source adds to `visited`. -/
def keyOf (c : WordComponent) : EntryRef := ⟨c.id, some c.definition⟩

/-- Rewriting of `SELF_REFERENCE` to `EntryRef(id=entry.id)` at the top of
the `_build_components` loop. -/
def relRefOf (r : ComponentRef) (entryId : EntryId) : EntryRef :=
  match r with
  | .selfRef => ⟨entryId, none⟩
  | .ref er => er

/-- The first definition produced by the source's generator
`(defn for defn in entry.definitions.values() if defn.components is not None
and defn.super_entry is None)` — note: the component list must be *present*
(`is not None`), not necessarily non-empty. -/
def firstComponentDefn (entry : DictionaryEntry) : Option EntryDefinition :=
  (entry.definitions.map Prod.snd).find?
    (fun d => d.components.isSome && d.super_entry.isNone)

/-- The `for rel_component in comp_defn.components` loop of
`_build_components`, parameterised by the function `bc` used to expand one
component (`_build_component`). -/
def buildComponentListAux (F : DictionaryFetcher) (bc : BuildFn)
    (entryId : EntryId) :
    List ComponentRef → Visited → Nat → BuildRes
  | [], visited, _ => .ok ([], visited)
  | r :: rs, visited, level =>
    let rel := relRefOf r entryId
    match F.get_entry rel.id with
    | none => .error .entryNotFound
    | some component =>
      match bc rel component visited level (rel.id != entryId) with
      | .error e => .error e
      | .ok (cs, v) =>
        match buildComponentListAux F bc entryId rs v level with
        | .error e => .error e
        | .ok (cs', v') => .ok (cs ++ cs', v')

/-- Generator `_build_components`, parameterised by the expansion function. -/
def buildComponentsAux (F : DictionaryFetcher) (bc : BuildFn)
    (entry : DictionaryEntry) (visited : Visited) (level : Nat) : BuildRes :=
  match firstComponentDefn entry with
  | none => .ok ([], visited)
  | some comp_defn =>
    buildComponentListAux F bc entry.id (comp_defn.components.getD [])
      visited level

/-- Generator `_build_component`: skip when the `(entry, definition)` pair is already
visited; resolve a merged definition through `get_super_entry`; emit one
`WordComponent`; mark visited; recurse into sub-components (at one fuel less)
unless `emit_subcomponents` is false. -/
def buildComponentF (F : DictionaryFetcher) :
    Nat → EntryRef → DictionaryEntry → Visited → Nat → Bool → BuildRes
  | 0, _, _, _, _, _ => .error .outOfFuel
  | fuel + 1, ref, component, visited, level, emitSub =>
    let defn := ref.definition.getD component.first_definition
    let comp_ref : EntryRef := ⟨component.id, some defn⟩
    if comp_ref ∈ visited then
      .ok ([], visited)
    else
      match lookupDefn component defn with
      | none => .error .keyError
      | some d =>
        let comp_entry :=
          if d.super_entry.isSome then F.get_super_entry component defn
          else component
        let c : WordComponent := ⟨component.id, defn, comp_entry, level⟩
        let visited' := comp_ref :: visited
        if emitSub then
          match buildComponentsAux F
              (fun r co v l e => buildComponentF F fuel r co v l e)
              comp_entry visited' (level + 1) with
          | .error e => .error e
          | .ok (cs, v) => .ok (c :: cs, v)
        else
          .ok ([c], visited')

/-- Function `build_components` (top level, fresh or caller-supplied `visited`). -/
def buildComponentsF (F : DictionaryFetcher) (fuel : Nat)
    (entry : DictionaryEntry) (visited : Visited) (level : Nat) : BuildRes :=
  buildComponentsAux F (fun r co v l e => buildComponentF F fuel r co v l e)
    entry visited level

/-- The component-list loop with the real expansion function. -/
def buildComponentListF (F : DictionaryFetcher) (fuel : Nat)
    (entryId : EntryId) (comps : List ComponentRef) (visited : Visited)
    (level : Nat) : BuildRes :=
  buildComponentListAux F (fun r co v l e => buildComponentF F fuel r co v l e)
    entryId comps visited level

/-- All `(entry_id, definition_id)` pairs reachable through the fetcher:
for each entry in the table, its id paired with each of its definition ids.
Every pair the traversal ever adds to `visited` (below the top level) lies in
this finite set. -/
def pairUniverse (F : DictionaryFetcher) : Finset EntryRef :=
  ((F.entries.map Prod.snd).flatMap
    (fun e => e.definitions.map (fun p => (⟨e.id, some p.1⟩ : EntryRef)))).toFinset

/-! ### Entity Resolver and Field Composer -/

/-- Method `NoteFormatter._ref_to_entry`: fetch the base entry; with a definition id,
narrow to a virtual single-definition entry (plain case) or delegate to the
super-entry synthesis (merged case); a missing definition id is re-raised as
`EntryNotFound`. -/
def ref_to_entry (P : NoteFormatter) (ref : EntryRef) :
    Except Err (EntryRef × DictionaryEntry) :=
  match P.fetcher.get_entry ref.id with
  | none => .error .entryNotFound
  | some entry =>
    let new_ref : EntryRef := ⟨entry.id, ref.definition⟩
    match ref.definition with
    | none => .ok (new_ref, entry)
    | some d =>
      match lookupDefn entry d with
      | none => .error .entryNotFound
      | some defn =>
        if defn.super_entry.isSome then
          .ok (new_ref, P.fetcher.get_super_entry entry d)
        else
          .ok (new_ref,
            { entry with
              definitions := entry.definitions.filter (fun p => p.1 == d) })

/-- The classifier reference picked by `format_extra_field`: the first
classifier of the first definition having a non-empty classifier list. -/
def firstClassifierRef (entry : DictionaryEntry) : Option EntryRef :=
  match (entry.definitions.map Prod.snd).find?
      (fun d => d.classifiers.isSome && !(d.classifiers.getD []).isEmpty) with
  | none => none
  | some d => (d.classifiers.getD []).head?

/-- Python `s.startswith("[")`. -/
def startsWithBracket (s : String) : Bool :=
  s.toList.head? == some '['

/-- Method `NoteFormatter.format_extra_field`: classifier line plus rendered
components (fresh `visited` set), joined by `join_nonempty_strings`. -/
def format_extra_field (P : NoteFormatter) (fuel : Nat)
    (entry : DictionaryEntry) : Except Err String := do
  let (components, _) ← buildComponentsF P.fetcher fuel entry [] 0
  let classifier_str ←
    match firstClassifierRef entry with
    | none => pure ""
    | some classifier_ref => do
      let classifier_entry ←
        match P.fetcher.get_entry classifier_ref.id with
        | none => Except.error Err.entryNotFound
        | some e => pure e
      let classifier_word ← format_inline_word P classifier_entry
      let classifier_defn ←
        format_definition classifier_entry classifier_ref.definition
      let head := "Classifier: " ++ classifier_word
      if startsWithBracket classifier_defn then
        pure (head ++ " " ++ classifier_defn)
      else
        pure (head ++ " - " ++ classifier_defn)
  let comp_strs ← components.mapM (format_component P)
  let components_str := String.intercalate "<br>" comp_strs
  .ok (join_nonempty_strings [classifier_str, components_str])

/-- Method `NoteFormatter.entry_to_note`: resolve, clear the media map, build the
three fields, snapshot the media map, clear it again. -/
def entry_to_note (P : NoteFormatter) (fuel : Nat) (ref : EntryRef)
    (media0 : Media) : Except Err (WordNote × Media) := do
  let (real_ref, entry) ← ref_to_entry P ref
  let _ := media0
  let media : Media := []
  let (word_str, media) ← format_word_field P entry media
  let definition_str ← format_definition_field entry
  let extra_str ← format_extra_field P fuel entry
  let snapshot := media
  .ok (⟨real_ref, word_str, definition_str, extra_str, snapshot⟩, ([] : Media))

/-! ### Reference Codec (`replace_inline_refs`) and cloze notes -/

/-- Modelled from the spec: the external reference grammar (missing `refs`
module): `parse_any_ref` yields zero or more candidate references and
`ref_to_string` renders a canonical text form. -/
structure RefGrammar where
  parse : List Char → List EntryRef
  toStr : EntryRef → List Char

/-- The body of an inline-reference match, after `[[` and the optional `!`:
the contents are the maximal run of non-`]` characters, which must be
followed by `]]`.  (The regex `[^]]*` cannot backtrack into a shorter run:
a shorter run would put a non-`]` character where `]]` is required.) -/
def matchInlineBody (cap : Bool) (rest : List Char) :
    Option (Bool × List Char × List Char) :=
  let contents := rest.takeWhile (fun c => c ≠ ']')
  match rest.dropWhile (fun c => c ≠ ']') with
  | ']' :: ']' :: tail => some (cap, contents, tail)
  | _ => none

/-- One attempted match of `\[\[(?P<capitalized>!)?(?P<contents>[^]]*)\]\]`
anchored at the start of the text: `[[`, an optional `!` (tried first, as the
regex engine does), a maximal run of non-`]` characters, then `]]`.  Returns
the capitalized flag, the contents and the text after the match. -/
def matchInlineRefAt (l : List Char) : Option (Bool × List Char × List Char) :=
  match l with
  | '[' :: '[' :: '!' :: rest => matchInlineBody true rest
  | '[' :: '[' :: rest => matchInlineBody false rest
  | _ => none

/-- The exact text of a matched occurrence (`m[0]` in the source). -/
def matchedText (cap : Bool) (contents : List Char) : List Char :=
  '[' :: '[' :: ((if cap then ['!'] else []) ++ contents ++ [']', ']'])

theorem matchInlineBody_length {cap0 cap : Bool} {rest contents tail : List Char}
    (h : matchInlineBody cap0 rest = some (cap, contents, tail)) :
    tail.length + 2 ≤ rest.length := by
  unfold matchInlineBody at h
  have hlen : (rest.dropWhile (fun c => c ≠ ']')).length ≤ rest.length :=
    (List.dropWhile_sublist _).length_le
  split at h
  next tail' heq =>
    obtain ⟨_, _, rfl⟩ : cap0 = cap ∧ _ ∧ tail' = tail := by
      simpa using h
    rw [heq] at hlen
    simp at hlen
    omega
  next => exact absurd h (by simp)

theorem matchInlineRefAt_tail_lt {l : List Char} {cap : Bool}
    {contents tail : List Char}
    (h : matchInlineRefAt l = some (cap, contents, tail)) :
    tail.length < l.length := by
  unfold matchInlineRefAt at h
  split at h
  · have := matchInlineBody_length h
    simp
    omega
  · have := matchInlineBody_length h
    simp at this ⊢
    omega
  · exact absurd h (by simp)

/-- Function `replace_inline_refs`: scan left to right; at each position try an
occurrence match.  When the grammar yields zero candidates the occurrence is
kept verbatim (`m[0]`) and the callback is not invoked; otherwise the
`capitalized` flag is or-ed with the uppercase test on the first content
character — Python's `contents[0]` raises `IndexError` on empty contents —
and the callback's output replaces the occurrence.  The callback may carry
state (the source's closures mutate enclosing variables) and may raise; both
are threaded through `σ` and `Except`.  (Lean's `Char.isUpper` covers the
ASCII range; the uppercase semantics is irrelevant to the claims settled
here.) -/
def subInlineRefs {σ : Type} (g : RefGrammar)
    (cb : InlineRef → σ → Except Err (List Char × σ)) :
    List Char → σ → Except Err (List Char × σ)
  | [], s => .ok ([], s)
  | c :: cs, s =>
    match h : matchInlineRefAt (c :: cs) with
    | none => do
      let (out, s') ← subInlineRefs g cb cs s
      .ok (c :: out, s')
    | some (cap, contents, tail) =>
      match g.parse contents with
      | [] => do
        let (out, s') ← subInlineRefs g cb tail s
        .ok (matchedText cap contents ++ out, s')
      | r :: _ =>
        match contents with
        | [] => .error .indexError
        | c0 :: _ => do
          let (repl, s') ← cb ⟨r, cap || c0.isUpper⟩ s
          let (out, s'') ← subInlineRefs g cb tail s'
          .ok (repl ++ out, s'')
  termination_by l _ => l.length
  decreasing_by
  · simp
  · exact matchInlineRefAt_tail_lt h
  · exact matchInlineRefAt_tail_lt h

/-- Function `format_inline_ref` from `note.py`: `[[`, optional `!`, the canonical
reference string, `]]`. -/
def format_inline_ref (g : RefGrammar) (ir : InlineRef) : List Char :=
  let ret := g.toStr ir.ref
  let ret := if ir.capitalized then '!' :: ret else ret
  '[' :: '[' :: (ret ++ [']', ']'])

/-- Python `str.capitalize()`: first character upper-cased, the rest
lower-cased (ASCII approximation, as with `isUpper`). -/
def pyCapitalize (s : String) : String :=
  match s.toList with
  | [] => ""
  | c :: r => String.mk (c.toUpper :: r.map Char.toLower)

/-- The shared-visited traversal of `format_cloze_extra_field`: one
`build_component` per accumulated `(ref, entry)` pair, in order, threading a
single `visited` set. -/
def buildAllComponents (F : DictionaryFetcher) (fuel : Nat) :
    List (EntryRef × DictionaryEntry) → Visited →
    Except Err (List WordComponent × Visited)
  | [], v => .ok ([], v)
  | (r, e) :: rest, v => do
    let (cs, v') ← buildComponentF F fuel r e v 0 true
    let (cs', v'') ← buildAllComponents F fuel rest v'
    .ok (cs ++ cs', v'')

/-- Method `NoteFormatter.format_cloze_extra_field`. -/
def format_cloze_extra_field (P : NoteFormatter) (fuel : Nat)
    (entries : List (EntryRef × DictionaryEntry)) : Except Err String := do
  let (components, _) ← buildAllComponents P.fetcher fuel entries []
  let strs ← components.mapM (format_component P)
  .ok (String.intercalate "<br>" strs)

/-- Method `NoteFormatter.cloze_to_note`: normalise references to ids (accumulating
resolved entries), substitute pronunciations, build the shared-visited extra
field.  The formatter's media map is never read, written or cleared on this
path, and the returned `ClozeNote` keeps its empty default `media`. -/
def cloze_to_note (P : NoteFormatter) (g : RefGrammar) (fuel : Nat)
    (raw_inline_ids : List Char) (media0 : Media) :
    Except Err (ClozeNote × Media) := do
  let parse_entries_ids : InlineRef → List (EntryRef × DictionaryEntry) →
      Except Err (List Char × List (EntryRef × DictionaryEntry)) :=
    fun inline_ref entries => do
      let (real_ref, entry) ← ref_to_entry P inline_ref.ref
      .ok (format_inline_ref g { inline_ref with ref := real_ref },
        entries ++ [(real_ref, entry)])
  let (inline_ids, entries) ← subInlineRefs g parse_entries_ids raw_inline_ids []
  let emit_pronounciations : InlineRef → Unit → Except Err (List Char × Unit) :=
    fun inline_ref _ => do
      let (_real_ref, entry) ← ref_to_entry P inline_ref.ref
      let word ← format_pronounciation P entry
      let word := if inline_ref.capitalized then pyCapitalize word else word
      .ok (word.toList, ())
  let (cloze, _) ← subInlineRefs g emit_pronounciations inline_ids ()
  let extra_str ← format_cloze_extra_field P fuel entries
  .ok (⟨String.mk inline_ids, String.mk cloze, extra_str, []⟩, media0)

/-! ### Concrete dictionaries used as test instances -/

/-- A cyclic dictionary: entry 1's component is entry 2 and vice versa. -/
def cycDefA : EntryDefinition :=
  { definition := "to do A", categories := [],
    components := some [.ref ⟨2, none⟩] }

def cycDefB : EntryDefinition :=
  { definition := "to do B", categories := [],
    components := some [.ref ⟨1, none⟩] }

def cycA : DictionaryEntry :=
  { id := 1, entry := "A", pronounciations := [("Paiboon", "aa")],
    definitions := [(0, cycDefA)], first_definition := 0 }

def cycB : DictionaryEntry :=
  { id := 2, entry := "B", pronounciations := [("Paiboon", "bb")],
    definitions := [(0, cycDefB)], first_definition := 0 }

def cycFetcher : DictionaryFetcher :=
  { entries := [(1, cycA), (2, cycB)], get_super_entry := fun e _ => e }

/-- An entry whose component list is a single self-reference. -/
def selfDef : EntryDefinition :=
  { definition := "oneself", categories := [], components := some [.selfRef] }

def selfEntry : DictionaryEntry :=
  { id := 7, entry := "ตน", pronounciations := [("Paiboon", "ton")],
    definitions := [(0, selfDef)], first_definition := 0 }

def selfFetcher : DictionaryFetcher :=
  { entries := [(7, selfEntry)], get_super_entry := fun e _ => e }

/-- An entry whose definition 0 has a present-but-empty component list and
whose definition 1 has a non-empty one referring to entry 2. -/
def pass4DefEmpty : EntryDefinition :=
  { definition := "empty list", categories := [], components := some [] }

def pass4DefFull : EntryDefinition :=
  { definition := "full list", categories := [],
    components := some [.ref ⟨2, none⟩] }

def pass4Sub : EntryDefinition :=
  { definition := "sub-word", categories := [] }

def pass4SubEntry : DictionaryEntry :=
  { id := 2, entry := "ย", pronounciations := [("Paiboon", "y")],
    definitions := [(0, pass4Sub)], first_definition := 0 }

def pass4Entry : DictionaryEntry :=
  { id := 1, entry := "x", pronounciations := [("Paiboon", "x")],
    definitions := [(0, pass4DefEmpty), (1, pass4DefFull)],
    first_definition := 0 }

def pass4Fetcher : DictionaryFetcher :=
  { entries := [(1, pass4Entry), (2, pass4SubEntry)],
    get_super_entry := fun e _ => e }

/-- The spec's simple-word-note scenario entry. -/
def waterDef : EntryDefinition := { definition := "water", categories := [] }

def waterEntry : DictionaryEntry :=
  { id := 1, entry := "น้ำ", pronounciations := [("Paiboon", "náam")],
    definitions := [(0, waterDef)], first_definition := 0 }

def waterFormatter : NoteFormatter :=
  { fetcher := { entries := [(1, waterEntry)], get_super_entry := fun e _ => e } }

/-- An entry with a plain definition 0 and a merged definition 1. -/
def c6Plain : EntryDefinition := { definition := "plain", categories := [] }

def c6Super : EntryDefinition :=
  { definition := "merged", categories := [], super_entry := some () }

def c6Entry : DictionaryEntry :=
  { id := 3, entry := "ค", pronounciations := [("Paiboon", "kh")],
    definitions := [(0, c6Plain), (1, c6Super)], first_definition := 0 }

def c6Formatter : NoteFormatter :=
  { fetcher := { entries := [(3, c6Entry)], get_super_entry := fun e _ => e } }

/-- An entry with one suitable definition, one merged definition and one
definition tagged "The English Alphabet". -/
def c7Suit : EntryDefinition :=
  { definition := "animal", categories := [["Animals"]] }

def c7Super : EntryDefinition :=
  { definition := "merged", categories := [], super_entry := some () }

def c7Alpha : EntryDefinition :=
  { definition := "letter", categories := [["The English Alphabet"]] }

def c7Entry : DictionaryEntry :=
  { id := 4, entry := "ด", pronounciations := [("Paiboon", "d")],
    definitions := [(0, c7Suit), (1, c7Super), (2, c7Alpha)],
    first_definition := 0 }

/-- A reference grammar that recognises nothing. -/
def grammarNone : RefGrammar := { parse := fun _ => [], toStr := fun _ => [] }

/-- A reference grammar yielding one candidate for every content. -/
def grammarOne : RefGrammar :=
  { parse := fun _ => [⟨1, none⟩], toStr := fun _ => [] }

/-- A callback that replaces every recognised occurrence by nothing. -/
def nullCallback : InlineRef → Unit → Except Err (List Char × Unit) :=
  fun _ s => .ok ([], s)

/-! ### Traversal invariants: dedup and visited-set bookkeeping -/

/-- Bookkeeping invariant of one traversal step: the final `visited` set is
the initial one plus exactly the keys of the emitted components; the emitted
keys are pairwise distinct and none of them was visited before. -/
def BuildInv (cs : List WordComponent) (v v' : Visited) : Prop :=
  (∀ x, x ∈ v' ↔ (x ∈ v ∨ x ∈ cs.map keyOf)) ∧
  (cs.map keyOf).Nodup ∧
  (∀ p ∈ cs.map keyOf, p ∉ v)

theorem buildInv_nil (v : Visited) : BuildInv [] v v := by
  refine ⟨fun x => ?_, by simp, by simp⟩
  simp

theorem buildInv_single {c : WordComponent} {v : Visited}
    (h : keyOf c ∉ v) : BuildInv [c] v (keyOf c :: v) := by
  refine ⟨fun x => ?_, by simp, ?_⟩
  · simp [or_comm]
  · simpa using h

theorem buildInv_append {cs cs' : List WordComponent} {v v1 v2 : Visited}
    (h1 : BuildInv cs v v1) (h2 : BuildInv cs' v1 v2) :
    BuildInv (cs ++ cs') v v2 := by
  obtain ⟨hiff1, hnd1, hnew1⟩ := h1
  obtain ⟨hiff2, hnd2, hnew2⟩ := h2
  refine ⟨fun x => ?_, ?_, ?_⟩
  · rw [hiff2, hiff1]
    simp [or_assoc]
  · rw [List.map_append]
    refine hnd1.append hnd2 (List.disjoint_left.mpr fun p hp hp' => ?_)
    exact hnew2 p hp' ((hiff1 p).mpr (Or.inr hp))
  · intro p hp hpv
    rw [List.map_append, List.mem_append] at hp
    rcases hp with hp | hp
    · exact hnew1 p hp hpv
    · exact hnew2 p hp ((hiff1 p).mpr (Or.inl hpv))

theorem buildInv_subset {cs : List WordComponent} {v v' : Visited}
    (h : BuildInv cs v v') : ∀ x ∈ v, x ∈ v' :=
  fun x hx => (h.1 x).mpr (Or.inl hx)

/-- The component-list loop preserves the bookkeeping invariant, provided
the expansion function does. -/
theorem buildInv_listAux {F : DictionaryFetcher} {bc : BuildFn}
    {entryId : EntryId}
    (hbc : ∀ r c v l e cs v', bc r c v l e = .ok (cs, v') → BuildInv cs v v') :
    ∀ (comps : List ComponentRef) (visited : Visited) (level : Nat)
      (cs : List WordComponent) (v' : Visited),
      buildComponentListAux F bc entryId comps visited level = .ok (cs, v') →
      BuildInv cs visited v' := by
  intro comps
  induction comps with
  | nil =>
    intro visited level cs v' h
    simp only [buildComponentListAux] at h
    obtain ⟨rfl, rfl⟩ : cs = [] ∧ v' = visited := by simpa using h.symm
    exact buildInv_nil _
  | cons r rs ih =>
    intro visited level cs v' h
    simp only [buildComponentListAux] at h
    split at h
    · exact absurd h (by simp)
    · split at h
      · exact absurd h (by simp)
      · next cs0 v0 hbc0 =>
        split at h
        · exact absurd h (by simp)
        · next cs1 v1 hrest =>
          obtain ⟨rfl, rfl⟩ : cs = cs0 ++ cs1 ∧ v' = v1 := by simpa using h.symm
          exact buildInv_append (hbc _ _ _ _ _ _ _ hbc0) (ih _ _ _ _ hrest)

theorem buildInv_componentsAux {F : DictionaryFetcher} {bc : BuildFn}
    {entry : DictionaryEntry}
    (hbc : ∀ r c v l e cs v', bc r c v l e = .ok (cs, v') → BuildInv cs v v') :
    ∀ (visited : Visited) (level : Nat) (cs : List WordComponent) (v' : Visited),
      buildComponentsAux F bc entry visited level = .ok (cs, v') →
      BuildInv cs visited v' := by
  intro visited level cs v' h
  unfold buildComponentsAux at h
  split at h
  · obtain ⟨rfl, rfl⟩ : cs = [] ∧ v' = visited := by simpa using h.symm
    exact buildInv_nil _
  · exact buildInv_listAux hbc _ _ _ _ _ h

/-- Generator `_build_component` satisfies the bookkeeping invariant at every fuel:
on success, the emitted `(entry, definition)` keys are distinct, fresh with
respect to the incoming `visited` set, and are exactly what is added to it. -/
theorem buildInv_buildComponentF {F : DictionaryFetcher} :
    ∀ (fuel : Nat) (ref : EntryRef) (component : DictionaryEntry)
      (visited : Visited) (level : Nat) (es : Bool)
      (cs : List WordComponent) (v' : Visited),
      buildComponentF F fuel ref component visited level es = .ok (cs, v') →
      BuildInv cs visited v' := by
  intro fuel
  induction fuel with
  | zero => intro _ _ _ _ _ _ _ h; exact absurd h (by simp [buildComponentF])
  | succ n ih =>
    intro ref component visited level es cs v' h
    simp only [buildComponentF] at h
    split at h
    · obtain ⟨rfl, rfl⟩ : cs = [] ∧ v' = visited := by simpa using h.symm
      exact buildInv_nil _
    · next hmem =>
      split at h
      · exact absurd h (by simp)
      · next d hd =>
        split at h
        · split at h
          · exact absurd h (by simp)
          · next cs0 v0 haux =>
            obtain ⟨rfl, rfl⟩ := by simpa using h.symm
            have hsingle := buildInv_single (c :=
              ⟨component.id, ref.definition.getD component.first_definition,
                if d.super_entry.isSome then
                  F.get_super_entry component
                    (ref.definition.getD component.first_definition)
                else component, level⟩) (v := visited) (by simpa [keyOf] using hmem)
            have hrest := buildInv_componentsAux
              (fun r c v l e cs v' hh => ih r c v l e cs v' hh) _ _ _ _ haux
            exact buildInv_append (by simpa [keyOf] using hsingle)
              (by simpa [keyOf] using hrest)
        · obtain ⟨rfl, rfl⟩ := by simpa using h.symm
          exact by
            simpa [keyOf] using buildInv_single (c :=
              ⟨component.id, ref.definition.getD component.first_definition,
                if d.super_entry.isSome then
                  F.get_super_entry component
                    (ref.definition.getD component.first_definition)
                else component, level⟩) (v := visited) (by simpa [keyOf] using hmem)

/-! ### Fuel sufficiency: the traversal terminates on every graph -/

theorem get_entry_mem_range {F : DictionaryFetcher} {i : EntryId}
    {e : DictionaryEntry} (h : F.get_entry i = some e) :
    e ∈ F.entries.map Prod.snd := by
  unfold DictionaryFetcher.get_entry at h
  match hf : F.entries.find? (fun p => p.1 == i) with
  | none => rw [hf] at h; simp at h
  | some q =>
    rw [hf] at h
    obtain rfl : q.2 = e := by simpa using h
    exact List.mem_map_of_mem _ (List.mem_of_find?_eq_some hf)

theorem lookupDefn_mem {e : DictionaryEntry} {d : DefinitionId}
    {x : EntryDefinition} (h : lookupDefn e d = some x) :
    (d, x) ∈ e.definitions := by
  unfold lookupDefn at h
  match hf : e.definitions.find? (fun p => p.1 == d) with
  | none => rw [hf] at h; simp at h
  | some q =>
    rw [hf] at h
    obtain rfl : q.2 = x := by simpa using h
    have hq := List.mem_of_find?_eq_some hf
    have hd : q.1 = d := by simpa using List.find?_some hf
    simpa [← hd] using hq

theorem mem_pairUniverse {F : DictionaryFetcher} {e : DictionaryEntry}
    {d : DefinitionId} {x : EntryDefinition}
    (he : e ∈ F.entries.map Prod.snd) (hd : lookupDefn e d = some x) :
    (⟨e.id, some d⟩ : EntryRef) ∈ pairUniverse F := by
  unfold pairUniverse
  rw [List.mem_toFinset, List.mem_flatMap]
  exact ⟨e, he, List.mem_map_of_mem _ (lookupDefn_mem hd)⟩

theorem card_sdiff_mono {U : Finset EntryRef} {v v' : Visited}
    (h : ∀ x ∈ v, x ∈ v') :
    (U \ v'.toFinset).card ≤ (U \ v.toFinset).card :=
  Finset.card_le_card (Finset.sdiff_subset_sdiff (le_refl U)
    (fun x hx => by
      rw [List.mem_toFinset] at hx ⊢
      exact h x hx))

theorem card_sdiff_cons_of_mem {U : Finset EntryRef} {v : Visited}
    {p : EntryRef} (hU : p ∈ U) (hv : p ∉ v) :
    (U \ (p :: v).toFinset).card + 1 = (U \ v.toFinset).card := by
  have hmem : p ∈ U \ v.toFinset := by
    rw [Finset.mem_sdiff, List.mem_toFinset]
    exact ⟨hU, hv⟩
  rw [List.toFinset_cons, Finset.sdiff_insert,
    Finset.card_erase_of_mem hmem]
  have := Finset.card_pos.mpr ⟨p, hmem⟩
  omega

theorem card_sdiff_cons_le {U : Finset EntryRef} {v : Visited}
    {p : EntryRef} :
    (U \ (p :: v).toFinset).card ≤ (U \ v.toFinset).card :=
  card_sdiff_mono (fun x hx => List.mem_cons_of_mem p hx)

/-- Fuel sufficiency for the component-list loop, given it for the expansion
function at the same fuel. -/
theorem suff_listAux {F : DictionaryFetcher} {bc : BuildFn} {fuel : Nat}
    {entryId : EntryId}
    (hbcSuff : ∀ r c v l e, c ∈ F.entries.map Prod.snd →
      (pairUniverse F \ v.toFinset).card + 1 ≤ fuel →
      bc r c v l e ≠ .error .outOfFuel)
    (hbcInv : ∀ r c v l e cs v', bc r c v l e = .ok (cs, v') →
      ∀ x ∈ v, x ∈ v') :
    ∀ (comps : List ComponentRef) (visited : Visited) (level : Nat),
      (pairUniverse F \ visited.toFinset).card + 1 ≤ fuel →
      buildComponentListAux F bc entryId comps visited level ≠
        .error .outOfFuel := by
  intro comps
  induction comps with
  | nil => intro visited level _; simp [buildComponentListAux]
  | cons r rs ih =>
    intro visited level hfuel
    simp only [buildComponentListAux]
    split
    · simp
    · next component hget =>
      have hrange : component ∈ F.entries.map Prod.snd := get_entry_mem_range hget
      split
      · next e hbc0 =>
        intro hcontra
        obtain rfl : e = Err.outOfFuel := by simpa using hcontra
        exact hbcSuff _ _ _ _ _ hrange hfuel hbc0
      · next cs0 v0 hbc0 =>
        have hsub := hbcInv _ _ _ _ _ _ _ hbc0
        have hfuel0 : (pairUniverse F \ v0.toFinset).card + 1 ≤ fuel :=
          le_trans (by have := card_sdiff_mono (U := pairUniverse F) hsub; omega)
            hfuel
        have hrest := ih v0 level hfuel0
        split
        · next e hrest0 =>
          intro hcontra
          obtain rfl : e = Err.outOfFuel := by simpa using hcontra
          exact hrest (by rw [hrest0])
        · simp

theorem suff_componentsAux {F : DictionaryFetcher} {bc : BuildFn} {fuel : Nat}
    (entry : DictionaryEntry)
    (hbcSuff : ∀ r c v l e, c ∈ F.entries.map Prod.snd →
      (pairUniverse F \ v.toFinset).card + 1 ≤ fuel →
      bc r c v l e ≠ .error .outOfFuel)
    (hbcInv : ∀ r c v l e cs v', bc r c v l e = .ok (cs, v') →
      ∀ x ∈ v, x ∈ v') :
    ∀ (visited : Visited) (level : Nat),
      (pairUniverse F \ visited.toFinset).card + 1 ≤ fuel →
      buildComponentsAux F bc entry visited level ≠ .error .outOfFuel := by
  intro visited level hfuel
  unfold buildComponentsAux
  split
  · simp
  · exact suff_listAux hbcSuff hbcInv _ _ _ hfuel

/-- Fuel sufficiency for `_build_component` on a fetched component: fuel
exceeding the number of unvisited fetcher pairs never runs out. -/
theorem suff_buildComponentF {F : DictionaryFetcher} :
    ∀ (fuel : Nat) (ref : EntryRef) (component : DictionaryEntry)
      (visited : Visited) (level : Nat) (es : Bool),
      component ∈ F.entries.map Prod.snd →
      (pairUniverse F \ visited.toFinset).card + 1 ≤ fuel →
      buildComponentF F fuel ref component visited level es ≠
        .error .outOfFuel := by
  intro fuel
  induction fuel with
  | zero => intro _ _ _ _ _ _ hfuel; omega
  | succ n ih =>
    intro ref component visited level es hrange hfuel
    simp only [buildComponentF]
    split
    · simp
    · next hmem =>
      split
      · simp
      · next d hd =>
        have hkey : (⟨component.id,
            some (ref.definition.getD component.first_definition)⟩ : EntryRef) ∈
            pairUniverse F := mem_pairUniverse hrange hd
        split
        · have hfuel' : (pairUniverse F \
              ((⟨component.id,
                some (ref.definition.getD component.first_definition)⟩ : EntryRef) ::
                visited).toFinset).card + 1 ≤ n := by
            have := card_sdiff_cons_of_mem hkey (by simpa using hmem)
            omega
          have haux := suff_componentsAux
            (if d.super_entry.isSome then
              F.get_super_entry component
                (ref.definition.getD component.first_definition)
              else component)
            (fun r c v l e hr hf => ih r c v l e hr hf)
            (fun r c v l e cs v' hh => buildInv_subset
              (buildInv_buildComponentF n r c v l e cs v' hh))
            _ (level + 1) hfuel'
          split
          · next e haux0 =>
            intro hcontra
            obtain rfl : e = Err.outOfFuel := by simpa using hcontra
            exact haux (by rw [haux0])
          · simp
        · simp

/-- Fuel sufficiency for a top-level `build_component` call on an arbitrary
(not necessarily fetched) component: one extra unit of fuel absorbs the
top-level pair, which may lie outside the fetcher's pair universe. -/
theorem suff_buildComponentF_top {F : DictionaryFetcher} :
    ∀ (fuel : Nat) (ref : EntryRef) (component : DictionaryEntry)
      (visited : Visited) (level : Nat) (es : Bool),
      (pairUniverse F \ visited.toFinset).card + 2 ≤ fuel →
      buildComponentF F fuel ref component visited level es ≠
        .error .outOfFuel := by
  intro fuel
  match fuel with
  | 0 => intro _ _ _ _ _ hfuel; omega
  | n + 1 =>
    intro ref component visited level es hfuel
    simp only [buildComponentF]
    split
    · simp
    · next hmem =>
      split
      · simp
      · next d hd =>
        split
        · have hfuel' : (pairUniverse F \
              ((⟨component.id,
                some (ref.definition.getD component.first_definition)⟩ : EntryRef) ::
                visited).toFinset).card + 1 ≤ n := by
            have := card_sdiff_cons_le (U := pairUniverse F)
              (v := visited)
              (p := (⟨component.id,
                some (ref.definition.getD component.first_definition)⟩ : EntryRef))
            omega
          have haux := suff_componentsAux
            (if d.super_entry.isSome then
              F.get_super_entry component
                (ref.definition.getD component.first_definition)
              else component)
            (fun r c v l e hr hf => suff_buildComponentF n r c v l e hr hf)
            (fun r c v l e cs v' hh => buildInv_subset
              (buildInv_buildComponentF n r c v l e cs v' hh))
            _ (level + 1) hfuel'
          split
          · next e haux0 =>
            intro hcontra
            obtain rfl : e = Err.outOfFuel := by simpa using hcontra
            exact haux (by rw [haux0])
          · simp
        · simp


/-! ### Further helper lemmas -/

theorem find?_of_first_index {α : Type} (p : α → Bool) :
    ∀ (l : List α) (i : Nat) (hi : i < l.length),
      p (l.get ⟨i, hi⟩) = true →
      (∀ j (hj : j < i), p (l.get ⟨j, hj.trans hi⟩) = false) →
      l.find? p = some (l.get ⟨i, hi⟩) := by
  intro l
  induction l with
  | nil => intro i hi; simp at hi
  | cons a t ih =>
    intro i hi hp hfirst
    match i with
    | 0 => simpa using List.find?_cons_of_pos t (by simpa using hp)
    | i' + 1 =>
      have ha : p a = false := by simpa using hfirst 0 (Nat.succ_pos i')
      rw [List.find?_cons_of_neg t (by simp [ha])]
      exact ih i' (by simpa using hi) (by simpa using hp)
        (fun j hj => by simpa using hfirst (j + 1) (by omega))

theorem componentDefnPred_true {X : EntryDefinition}
    (h : X.components.isSome = true ∧ X.super_entry = none) :
    (X.components.isSome && X.super_entry.isNone) = true := by
  rw [Bool.and_eq_true]
  exact ⟨h.1, by rw [Option.isNone_iff_eq_none]; exact h.2⟩

theorem componentDefnPred_false {X : EntryDefinition}
    (h : ¬(X.components.isSome = true ∧ X.super_entry = none)) :
    (X.components.isSome && X.super_entry.isNone) = false := by
  by_cases hs : X.super_entry = none
  · have hc : X.components.isSome = false := by
      cases h2 : X.components.isSome
      · rfl
      · exact absurd ⟨h2, hs⟩ h
    simp [hc]
  · cases h2 : X.components.isSome
    · simp [h2]
    · simp only [h2, Bool.true_and, Option.isNone_iff_eq_none, Bool.eq_false_iff, Ne]
      exact hs

theorem filter_key_singleton :
    ∀ (l : List (DefinitionId × EntryDefinition)),
      (l.map Prod.fst).Nodup →
      ∀ {d : DefinitionId} {x : EntryDefinition}, (d, x) ∈ l →
      l.filter (fun p => p.1 == d) = [(d, x)] := by
  intro l
  induction l with
  | nil => intro _ _ _ h; simp at h
  | cons a t ih =>
    intro hnd d x hmem
    rw [List.map_cons, List.nodup_cons] at hnd
    rcases List.mem_cons.mp hmem with rfl | hmem2
    · have hkeys : ∀ q ∈ t, (q.1 == d) = false := by
        intro q hq
        have hq1 : q.1 ∈ t.map Prod.fst := List.mem_map_of_mem _ hq
        have : q.1 ≠ d := by
          intro he
          exact hnd.1 (he ▸ hq1)
        simpa using this
      have htail : t.filter (fun p => p.1 == d) = [] :=
        List.filter_eq_nil_iff.mpr (fun q hq => by simp [hkeys q hq])
      simp [List.filter_cons, htail]
    · have hne : (a.1 == d) = false := by
        have hdm : d ∈ t.map Prod.fst := List.mem_map_of_mem Prod.fst hmem2
        have : a.1 ≠ d := by
          intro he
          apply hnd.1
          rw [he]
          exact hdm
        simpa using this
      have := ih hnd.2 hmem2
      simpa [List.filter_cons, hne] using this

theorem is_suitable_iff (d : EntryDefinition) :
    is_suitable_definition d = true ↔
      (d.super_entry = none ∧ "The English Alphabet" ∉ d.categories.flatten) := by
  unfold is_suitable_definition
  rcases hs : d.super_entry with _ | u
  · simp only [hs, Option.isSome_none, Bool.false_eq_true, if_false]
    rcases hc : d.categories.flatten.contains "The English Alphabet" with _ | _
    · simp only [Bool.false_eq_true, if_false]
      have hni : "The English Alphabet" ∉ d.categories.flatten := fun hmem => by
        have h1 : d.categories.flatten.contains "The English Alphabet" = true :=
          List.elem_iff.mpr hmem
        rw [h1] at hc
        exact Bool.true_eq_false.mp hc
      simp [hni]
    · simp only [if_true]
      have hin : "The English Alphabet" ∈ d.categories.flatten := List.elem_iff.mp hc
      simp [hin]
  · simp [hs]

theorem matchInlineBody_eq {cap0 cap : Bool} {rest contents tail : List Char}
    (h : matchInlineBody cap0 rest = some (cap, contents, tail)) :
    cap = cap0 ∧ rest = contents ++ ']' :: ']' :: tail := by
  unfold matchInlineBody at h
  split at h
  · next tail' heq =>
    obtain ⟨rfl, rfl, rfl⟩ :
        cap0 = cap ∧ rest.takeWhile (fun c => c ≠ ']') = contents ∧ tail' = tail := by
      simpa using h
    refine ⟨rfl, ?_⟩
    conv_lhs => rw [← List.takeWhile_append_dropWhile (p := fun c => c ≠ ']') (l := rest)]
    rw [heq]
  · exact absurd h (by simp)

theorem matchInlineRefAt_eq_append {l : List Char} {cap : Bool}
    {contents tail : List Char}
    (h : matchInlineRefAt l = some (cap, contents, tail)) :
    l = matchedText cap contents ++ tail := by
  unfold matchInlineRefAt at h
  split at h
  · obtain ⟨rfl, hrest⟩ := matchInlineBody_eq h
    simp [matchedText, hrest]
  · obtain ⟨rfl, hrest⟩ := matchInlineBody_eq h
    simp [matchedText, hrest]
  · exact absurd h (by simp)

theorem except_bind_ok {α β : Type} {x : Except Err α} {f : α → Except Err β}
    {b : β} (h : x >>= f = .ok b) : ∃ a, x = .ok a ∧ f a = .ok b := by
  cases x with
  | error e => simp [Bind.bind, Except.bind] at h
  | ok a => exact ⟨a, rfl, by simpa [Bind.bind, Except.bind] using h⟩

/-- C1: for every dictionary graph — cyclic graphs included — the Component
Graph Builder (`build_components` / `build_component`) terminates: at fuel
(number of fetcher `(entry, definition)` pairs) + 2 the computation never
exhausts its fuel, so it produces a finite component sequence; and on success
the emitted `(entry_id, definition_id)` keys are pairwise distinct, because a
pair already in the shared `visited` set is skipped with no emission and no
recursion. -/
theorem claim_c1 (F : DictionaryFetcher) (entry : DictionaryEntry)
    (ref : EntryRef) (component : DictionaryEntry) :
    (buildComponentsF F ((pairUniverse F).card + 2) entry [] 0 ≠
        .error .outOfFuel ∧
      ∀ cs v', buildComponentsF F ((pairUniverse F).card + 2) entry [] 0 =
          .ok (cs, v') → (cs.map keyOf).Nodup) ∧
    (buildComponentF F ((pairUniverse F).card + 2) ref component [] 0 true ≠
        .error .outOfFuel ∧
      ∀ cs v', buildComponentF F ((pairUniverse F).card + 2) ref component [] 0
          true = .ok (cs, v') → (cs.map keyOf).Nodup) := by
  refine ⟨⟨?_, ?_⟩, ?_, ?_⟩
  · exact suff_componentsAux entry
      (fun r c v l e hr hf => suff_buildComponentF _ r c v l e hr hf)
      (fun r c v l e cs v' hh => buildInv_subset
        (buildInv_buildComponentF _ r c v l e cs v' hh))
      [] 0 (by simp)
  · intro cs v' h
    exact (buildInv_componentsAux
      (fun r c v l e cs v' hh => buildInv_buildComponentF _ r c v l e cs v' hh)
      _ _ _ _ h).2.1
  · exact suff_buildComponentF_top _ ref component [] 0 true (by simp)
  · intro cs v' h
    exact (buildInv_buildComponentF _ ref component [] 0 true cs v' h).2.1

/-- Witness for C1 on the cyclic dictionary 1 → 2 → 1: the traversal
terminates and the emitted keys (entry 2 then entry 1) are distinct. -/
theorem claim_c1_witness :
    buildComponentsF cycFetcher ((pairUniverse cycFetcher).card + 2)
        cycA [] 0 ≠ .error .outOfFuel ∧
    (([⟨2, 0, cycB, 0⟩, ⟨1, 0, cycA, 1⟩] : List WordComponent).map keyOf).Nodup :=
  ⟨(claim_c1 cycFetcher cycA ⟨1, none⟩ cycA).1.1,
   (claim_c1 cycFetcher cycA ⟨1, none⟩ cycA).1.2 _ _ (by rfl)⟩

/-- C2: a component reference resolving to the enclosing entry's own id
(a self-reference, or an explicit reference with that id) is expanded with
`emit_subcomponents = false`: even on first encounter (not yet visited), the
loop emits exactly one `WordComponent` for it and performs no recursion into
its sub-components — the result list has that single element and `visited`
grows by just its key. -/
theorem claim_c2 (F : DictionaryFetcher) (fuel : Nat) (entryId : EntryId)
    (r : ComponentRef) (visited : Visited) (level : Nat)
    (comp : DictionaryEntry) (d : EntryDefinition)
    (hrel : (relRefOf r entryId).id = entryId)
    (hget : F.get_entry entryId = some comp)
    (hvis : (⟨comp.id, some ((relRefOf r entryId).definition.getD
      comp.first_definition)⟩ : EntryRef) ∉ visited)
    (hlook : lookupDefn comp
      ((relRefOf r entryId).definition.getD comp.first_definition) = some d) :
    buildComponentListF F (fuel + 1) entryId [r] visited level =
      .ok ([⟨comp.id,
        (relRefOf r entryId).definition.getD comp.first_definition,
        (if d.super_entry.isSome then
          F.get_super_entry comp
            ((relRefOf r entryId).definition.getD comp.first_definition)
         else comp), level⟩],
        (⟨comp.id, some ((relRefOf r entryId).definition.getD
          comp.first_definition)⟩ : EntryRef) :: visited) := by
  simp only [buildComponentListF, buildComponentListAux, hrel, hget,
    buildComponentF]
  rw [if_neg hvis]
  rw [hlook]
  simp

/-- Witness for C2: entry 7's component list is a single self-reference;
expanding it emits exactly one component and does not recurse, although its
key was not yet visited. -/
theorem claim_c2_witness :
    buildComponentListF selfFetcher 2 7 [ComponentRef.selfRef] [] 0 =
      .ok ([⟨7, 0, selfEntry, 0⟩], [⟨7, some 0⟩]) := by
  rw [claim_c2 selfFetcher 1 7 ComponentRef.selfRef [] 0 selfEntry selfDef
    rfl rfl (by simp) rfl]
  rfl


/-- Counterexample to C3: `cloze_to_note` does not clear the formatter's
media map — a non-empty incoming map survives the whole call unchanged — and
the returned `ClozeNote` carries the empty default `media`, not a snapshot of
the registry. -/
theorem claim_c3_counterexample :
    cloze_to_note waterFormatter grammarNone 4 [] [("a", "b")] =
      .ok (⟨"", "", "", []⟩, [("a", "b")]) ∧
    ([("a", "b")] : Media) ≠ [] := by
  constructor
  · rw [cloze_to_note, subInlineRefs]
    show (do
      let (cloze, _) ← subInlineRefs grammarNone _ [] ()
      let extra_str ← format_cloze_extra_field waterFormatter 4 []
      (Except.ok ((⟨String.mk [], String.mk cloze, extra_str, []⟩ : ClozeNote),
        ([("a", "b")] : Media)) : Except Err (ClozeNote × Media))) = _
    rw [subInlineRefs]
    rfl
  · simp

/-- C3 (amended): `entry_to_note` clears the media map at its start (its
result does not depend on the incoming map) and again at its end (on success
the final map is empty); `cloze_to_note`, by contrast, never touches the
media map — it returns the incoming map unchanged — and its `ClozeNote`
carries an empty media field, the cloze pipeline registering no media. -/
theorem claim_c3_amended (P : NoteFormatter) (g : RefGrammar) (fuel : Nat)
    (ref : EntryRef) (raw : List Char) (m0 : Media) :
    (entry_to_note P fuel ref m0 = entry_to_note P fuel ref [] ∧
      ∀ note m', entry_to_note P fuel ref m0 = .ok (note, m') → m' = []) ∧
    (∀ note m', cloze_to_note P g fuel raw m0 = .ok (note, m') →
      m' = m0 ∧ note.media = []) := by
  refine ⟨⟨rfl, ?_⟩, ?_⟩
  · intro note m' h
    unfold entry_to_note at h
    obtain ⟨a, ha, h⟩ := except_bind_ok h
    obtain ⟨real_ref, entry⟩ := a
    obtain ⟨b, hb, h⟩ := except_bind_ok h
    obtain ⟨word_str, media1⟩ := b
    obtain ⟨c, hc, h⟩ := except_bind_ok h
    obtain ⟨d, hd, h⟩ := except_bind_ok h
    exact (by simpa using h.symm : _ ∧ m' = []).2
  · intro note m' h
    unfold cloze_to_note at h
    obtain ⟨a, ha, h⟩ := except_bind_ok h
    obtain ⟨inline_ids, entries⟩ := a
    obtain ⟨b, hb, h⟩ := except_bind_ok h
    obtain ⟨cloze, u⟩ := b
    obtain ⟨c, hc, h⟩ := except_bind_ok h
    obtain ⟨hnote, hm⟩ : note =
        ⟨String.mk inline_ids, String.mk cloze, c, []⟩ ∧ m' = m0 := by
      simpa using h.symm
    subst hnote
    exact ⟨hm, rfl⟩

/-- Witness for C3 (amended) at the simple-word fixture: a word-note build
started with a dirty media map ends with an empty one, and a cloze build
leaves the dirty map exactly as it was, with an empty note media field. -/
theorem claim_c3_witness :
    ([] : Media) = [] ∧
    ([("a", "b")] : Media) = [("a", "b")] ∧
    (⟨"", "", "", []⟩ : ClozeNote).media = [] := by
  have hentry := (claim_c3_amended waterFormatter grammarNone 4 ⟨1, none⟩ []
    [("a", "b")]).1.2 ⟨⟨1, none⟩, "น้ำ[náam]", "water", "", []⟩ [] (by rfl)
  have hcloze := (claim_c3_amended waterFormatter grammarNone 4 ⟨1, none⟩ []
    [("a", "b")]).2 ⟨"", "", "", []⟩ [("a", "b")] (by
      rw [cloze_to_note, subInlineRefs]
      show (do
        let (cloze, _) ← subInlineRefs grammarNone _ [] ()
        let extra_str ← format_cloze_extra_field waterFormatter 4 []
        (Except.ok ((⟨String.mk [], String.mk cloze, extra_str, []⟩ : ClozeNote),
          ([("a", "b")] : Media)) : Except Err (ClozeNote × Media))) = _
      rw [subInlineRefs]
      rfl)
  exact ⟨hentry, hcloze.1, hcloze.2⟩

/-- Counterexample to C4: on an entry whose definition 0 has a
present-but-empty component list and whose definition 1 has a non-empty one,
the builder emits nothing — the empty list is selected, not passed over in
favour of definition 1 (which would have produced the entry-2 component). -/
theorem claim_c4_counterexample :
    buildComponentsF pass4Fetcher 6 pass4Entry [] 0 = .ok ([], []) ∧
    buildComponentsF pass4Fetcher 6 pass4Entry [] 0 ≠
      .ok ([⟨2, 0, pass4SubEntry, 0⟩], [⟨2, some 0⟩]) := by
  refine ⟨rfl, fun h => ?_⟩
  rw [show buildComponentsF pass4Fetcher 6 pass4Entry [] 0 = .ok ([], [])
    from rfl] at h
  simp at h

/-- C4 (amended): when expanding an entry, the builder selects, in stored
definition order, the first definition whose component list is *present*
(`is not None` — possibly empty) and that is not a merged (super) definition,
and iterates that definition's component list; a present-but-empty list is
therefore selected and yields nothing, and later definitions are never
consulted. -/
theorem claim_c4_amended (F : DictionaryFetcher) (fuel : Nat)
    (entry : DictionaryEntry) (visited : Visited) (level : Nat)
    (i : Nat) (hi : i < entry.definitions.length)
    (hPi : (entry.definitions.get ⟨i, hi⟩).2.components.isSome = true ∧
      (entry.definitions.get ⟨i, hi⟩).2.super_entry = none)
    (hfirst : ∀ j (hj : j < i),
      ¬((entry.definitions.get ⟨j, hj.trans hi⟩).2.components.isSome = true ∧
        (entry.definitions.get ⟨j, hj.trans hi⟩).2.super_entry = none)) :
    buildComponentsF F fuel entry visited level =
      buildComponentListF F fuel entry.id
        ((entry.definitions.get ⟨i, hi⟩).2.components.getD []) visited level := by
  have hlen : i < (entry.definitions.map Prod.snd).length := by simpa using hi
  have hget : (entry.definitions.map Prod.snd).get ⟨i, hlen⟩ =
      (entry.definitions.get ⟨i, hi⟩).2 := by
    simp
  have hfind : firstComponentDefn entry = some (entry.definitions.get ⟨i, hi⟩).2 := by
    unfold firstComponentDefn
    rw [find?_of_first_index _ _ i hlen]
    · rw [hget]
    · rw [hget]
      exact componentDefnPred_true hPi
    · intro j hj
      have hj' : j < entry.definitions.length := by omega
      have hgj : (entry.definitions.map Prod.snd).get ⟨j, hj.trans hlen⟩ =
          (entry.definitions.get ⟨j, hj'⟩).2 := by simp
      rw [hgj]
      exact componentDefnPred_false (hfirst j hj)
  unfold buildComponentsF buildComponentsAux
  rw [hfind]
  rfl

/-- Witness for C4 (amended): at the fixture, definition 0 (present, empty
component list, not merged) is selected, so the build reduces to the loop
over the empty list. -/
theorem claim_c4_witness :
    buildComponentsF pass4Fetcher 6 pass4Entry [] 0 =
      buildComponentListF pass4Fetcher 6 pass4Entry.id [] [] 0 := by
  have h := claim_c4_amended pass4Fetcher 6 pass4Entry [] 0 0 (by decide)
    ⟨by decide, by decide⟩ (fun j hj => absurd hj (Nat.not_lt_zero j))
  exact h

/-- Counterexample to C5: on the spec's simple-word scenario entry, the word
field produced by `entry_to_note` is `"น้ำ[náam]"` (entry text followed by the
bracketed pronunciation, as `format_word_field` builds it), not the
`<ruby>...</ruby>` markup the claim states (which is what `format_inline_word`
would produce). -/
theorem claim_c5_counterexample :
    entry_to_note waterFormatter 4 ⟨1, none⟩ [] =
      .ok (⟨⟨1, none⟩, "น้ำ[náam]", "water", "", []⟩, []) ∧
    "น้ำ[náam]" ≠ "<ruby>น้ำ<rt>náam</rt></ruby>" := by
  refine ⟨rfl, ?_⟩
  decide

/-- C5 (amended): for the scenario entry (id 1, text "น้ำ", Paiboon
pronunciation "náam", single plain definition "water", no audio), the word
note has word `"น้ำ[náam]"`, definition `"water"`, empty extra field and no
media. -/
theorem claim_c5_amended :
    entry_to_note waterFormatter 4 ⟨1, none⟩ [] =
      .ok (⟨⟨1, none⟩, "น้ำ[náam]", "water", "", []⟩, []) := rfl

/-- C6: for a reference carrying a definition id, the Entity Resolver fails
with `EntryNotFound` when that id is absent from the fetched entry's
definitions; when it is present and plain (non-merged), the resolver returns
the entry narrowed to the pairs with that key — under the dictionary's unique
keys exactly the one requested definition — with all other fields unchanged
(the record update touches only `definitions`). -/
theorem claim_c6 (P : NoteFormatter) (ref : EntryRef) (d : DefinitionId)
    (entry : DictionaryEntry) (x : EntryDefinition)
    (href : ref.definition = some d)
    (hget : P.fetcher.get_entry ref.id = some entry) :
    (lookupDefn entry d = none → ref_to_entry P ref = .error .entryNotFound) ∧
    (lookupDefn entry d = some x → x.super_entry = none →
      (ref_to_entry P ref = .ok (⟨entry.id, some d⟩,
        { entry with
          definitions := entry.definitions.filter (fun p => p.1 == d) }) ∧
      ((entry.definitions.map Prod.fst).Nodup →
        entry.definitions.filter (fun p => p.1 == d) = [(d, x)]))) := by
  constructor
  · intro hnone
    simp only [ref_to_entry, hget, href, hnone]
  · intro hsome hplain
    constructor
    · simp only [ref_to_entry, hget, href, hsome, hplain, Option.isSome_none,
        Bool.false_eq_true, if_false]
    · intro hnd
      exact filter_key_singleton entry.definitions hnd (lookupDefn_mem hsome)

/-- Witness for C6: resolving `(3, definition 0)` on the two-definition
fixture yields the narrowed single-definition view. -/
theorem claim_c6_witness :
    ref_to_entry c6Formatter ⟨3, some 0⟩ =
      .ok (⟨3, some 0⟩,
        { c6Entry with
          definitions := c6Entry.definitions.filter (fun p => p.1 == 0) }) ∧
    c6Entry.definitions.filter (fun p => p.1 == 0) = [(0, c6Plain)] :=
  ⟨((claim_c6 c6Formatter ⟨3, some 0⟩ 0 c6Entry c6Plain rfl rfl).2
      rfl rfl).1,
   ((claim_c6 c6Formatter ⟨3, some 0⟩ 0 c6Entry c6Plain rfl rfl).2
      rfl rfl).2 (by decide)⟩

/-- C7: `suitable_definitions` returns exactly the entry's definition ids
whose definition is not merged (no `super_entry`) and not tagged with the
category "The English Alphabet", and it fails with the
"no suitable definitions" error if and only if no definition passes that
filter. -/
theorem claim_c7 (entry : DictionaryEntry) :
    (∀ ids, suitable_definitions entry = .ok ids →
      ∀ id, id ∈ ids ↔ ∃ d, (id, d) ∈ entry.definitions ∧
        d.super_entry = none ∧ "The English Alphabet" ∉ d.categories.flatten) ∧
    (suitable_definitions entry = .error .noSuitableDefinitions ↔
      ∀ p ∈ entry.definitions, ¬(p.2.super_entry = none ∧
        "The English Alphabet" ∉ p.2.categories.flatten)) := by
  constructor
  · intro ids hok id
    have hids : ids =
        (entry.definitions.filter (fun p => is_suitable_definition p.2)).map (·.1) := by
      simp only [suitable_definitions] at hok
      split at hok
      · exact absurd hok (by simp)
      · exact (by simpa using hok.symm)
    subst hids
    rw [List.mem_map]
    constructor
    · rintro ⟨p, hp, rfl⟩
      rw [List.mem_filter] at hp
      exact ⟨p.2, by simpa using hp.1, (is_suitable_iff p.2).mp hp.2⟩
    · rintro ⟨d, hmem, hsuit⟩
      exact ⟨(id, d), List.mem_filter.mpr ⟨hmem, (is_suitable_iff d).mpr hsuit⟩, rfl⟩
  · simp only [suitable_definitions]
    constructor
    · intro herr
      split at herr
      · next hlen =>
        simp at hlen
        intro p hp hsuit
        have hfalse := hlen p.1 p.2 (by simpa using hp)
        simp [(is_suitable_iff p.2).mpr hsuit] at hfalse
      · exact absurd herr (by simp)
    · intro hall
      have hfil : entry.definitions.filter (fun p => is_suitable_definition p.2) = [] :=
        List.filter_eq_nil_iff.mpr (fun p hp => by
          have := hall p hp
          simpa [is_suitable_iff p.2] using this)
      simp [hfil]

/-- Witness for C7 on a three-definition fixture (one suitable, one merged,
one tagged "The English Alphabet"): the returned list is characterised by the
filter. -/
theorem claim_c7_witness :
    (0 : DefinitionId) ∈ ([0] : List DefinitionId) ↔
      ∃ d, ((0 : DefinitionId), d) ∈ c7Entry.definitions ∧
        d.super_entry = none ∧
        "The English Alphabet" ∉ d.categories.flatten :=
  (claim_c7 c7Entry).1 [0] (by rfl) 0

/-- C8: `use_media` is deduplicating and collision-checked.  Registering a
locator whose sanitized name (every `/` replaced by `_`) is fresh appends one
entry; registering the same locator again returns the same name and leaves
the map unchanged, still holding a single entry for that name; registering a
*different* locator that sanitizes to the same name fails with the
internal-consistency error (the `assert`, the spec's `MediaNameCollision`). -/
theorem claim_c8 (media : Media) (p1 p2 : String)
    (hfresh : media.find? (fun q => q.1 == replaceChar '/' '_' p1) = none)
    (hne : p2 ≠ p1)
    (hsame : replaceChar '/' '_' p2 = replaceChar '/' '_' p1) :
    (use_media media p1 =
      .ok (replaceChar '/' '_' p1, media ++ [(replaceChar '/' '_' p1, p1)])) ∧
    (use_media (media ++ [(replaceChar '/' '_' p1, p1)]) p1 =
      .ok (replaceChar '/' '_' p1, media ++ [(replaceChar '/' '_' p1, p1)])) ∧
    ((media ++ [(replaceChar '/' '_' p1, p1)]).filter
      (fun q => q.1 == replaceChar '/' '_' p1) = [(replaceChar '/' '_' p1, p1)]) ∧
    (use_media (media ++ [(replaceChar '/' '_' p1, p1)]) p2 =
      .error .mediaNameCollision) := by
  have hfind : (media ++ [(replaceChar '/' '_' p1, p1)]).find?
      (fun q => q.1 == replaceChar '/' '_' p1) =
      some (replaceChar '/' '_' p1, p1) := by
    rw [List.find?_append, hfresh]
    simp
  refine ⟨?_, ?_, ?_, ?_⟩
  · unfold use_media
    rw [hfresh]
  · unfold use_media
    rw [hfind]
    simp
  · have hnil : media.filter (fun q => q.1 == replaceChar '/' '_' p1) = [] :=
      List.filter_eq_nil_iff.mpr (fun q hq => by
        have := List.find?_eq_none.mp hfresh q hq
        simpa using this)
    rw [List.filter_append, hnil]
    simp
  · unfold use_media
    rw [hsame, hfind]
    split
    · next p heq =>
      obtain rfl : p = (replaceChar '/' '_' p1, p1) := by simpa using heq.symm
      rw [if_neg]
      intro h
      exact hne (by simpa using h.symm)
    · next heq => simp at heq

/-- Witness for C8 with `"a/b"` and `"a_b"`, which both sanitize to
`"a_b"`. -/
theorem claim_c8_witness :
    (use_media [] "a/b" =
      .ok (replaceChar '/' '_' "a/b", [] ++ [(replaceChar '/' '_' "a/b", "a/b")])) ∧
    (use_media ([] ++ [(replaceChar '/' '_' "a/b", "a/b")]) "a/b" =
      .ok (replaceChar '/' '_' "a/b", [] ++ [(replaceChar '/' '_' "a/b", "a/b")])) ∧
    (([] ++ [(replaceChar '/' '_' "a/b", "a/b")]).filter
      (fun q => q.1 == replaceChar '/' '_' "a/b") =
      [(replaceChar '/' '_' "a/b", "a/b")]) ∧
    (use_media ([] ++ [(replaceChar '/' '_' "a/b", "a/b")]) "a_b" =
      .error .mediaNameCollision) :=
  claim_c8 [] "a/b" "a_b" rfl (by decide) rfl

/-- C9: when a `[[...]]` occurrence's content parses to zero candidate
references, `replace_inline_refs` keeps the occurrence character-for-character
(the input decomposes as the matched text followed by the rest, and the
output prepends exactly that matched text), and the caller-supplied callback
is not invoked on it — the result factors through the recursion on the rest
alone, for any callback. -/
theorem claim_c9 {σ : Type} (g : RefGrammar)
    (cb : InlineRef → σ → Except Err (List Char × σ)) (l : List Char) (s : σ)
    (cap : Bool) (contents tail : List Char)
    (hmatch : matchInlineRefAt l = some (cap, contents, tail))
    (hparse : g.parse contents = []) :
    l = matchedText cap contents ++ tail ∧
    subInlineRefs g cb l s = (do
      let (out, s') ← subInlineRefs g cb tail s
      .ok (matchedText cap contents ++ out, s')) := by
  refine ⟨matchInlineRefAt_eq_append hmatch, ?_⟩
  match l with
  | [] => simp [matchInlineRefAt] at hmatch
  | c :: cs =>
    rw [subInlineRefs]
    split
    · next heq => rw [heq] at hmatch; exact absurd hmatch (by simp)
    · next cap2 contents2 tail2 heq =>
      rw [hmatch] at heq
      obtain ⟨rfl, rfl, rfl⟩ : cap = cap2 ∧ contents = contents2 ∧ tail = tail2 := by
        simpa using heq
      simp [hparse]

/-- Witness for C9: `[[unrecognizable garbage]]` is returned unchanged when
the grammar yields no candidates, even under a callback that erases every
recognised occurrence. -/
theorem claim_c9_witness :
    subInlineRefs grammarNone nullCallback
        ("[[unrecognizable garbage]]".toList) () =
      .ok ("[[unrecognizable garbage]]".toList, ()) := by
  have h := claim_c9 grammarNone nullCallback
    ("[[unrecognizable garbage]]".toList) () false
    ("unrecognizable garbage".toList) [] (by rfl) (by rfl)
  rw [h.2, subInlineRefs]
  rfl

/-- C10: on an occurrence with empty bracketed content for which the grammar
returns at least one candidate, the capitalization check `contents[0]`
indexes an empty string, so evaluation fails with an `IndexError` instead of
producing an `InlineRef` — `replace_inline_refs` is total only when empty
contents always parse to zero candidates. -/
theorem claim_c10 {σ : Type} (g : RefGrammar)
    (cb : InlineRef → σ → Except Err (List Char × σ)) (l : List Char) (s : σ)
    (cap : Bool) (tail : List Char) (r : EntryRef) (rest : List EntryRef)
    (hmatch : matchInlineRefAt l = some (cap, [], tail))
    (hparse : g.parse [] = r :: rest) :
    subInlineRefs g cb l s = .error .indexError := by
  match l with
  | [] => simp [matchInlineRefAt] at hmatch
  | c :: cs =>
    rw [subInlineRefs]
    split
    · next heq => rw [heq] at hmatch; exact absurd hmatch (by simp)
    · next cap2 contents2 tail2 heq =>
      rw [hmatch] at heq
      obtain ⟨rfl, rfl, rfl⟩ : cap = cap2 ∧ ([] : List Char) = contents2 ∧ tail = tail2 := by
        simpa using heq
      simp [hparse]

/-- Witness for C10: `[[]]` under a grammar that returns a candidate for the
empty content crashes. -/
theorem claim_c10_witness :
    subInlineRefs grammarOne nullCallback ("[[]]".toList) () =
      .error .indexError :=
  claim_c10 grammarOne nullCallback ("[[]]".toList) () false [] ⟨1, none⟩ []
    (by rfl) (by rfl)

end ThaiLanguage
